import Mathlib

/-!
Shallow embedding of `asciidocpy/document.py`, a document-object model that
renders a tree of typed elements into AsciiDoc markup text.

Python values that can appear in optional attribute slots (strings or
integers, or `None`) are modelled by `Option PyVal`; Python truthiness and
`str()` conversion are modelled explicitly.  List items and table cells are
modelled by the string that Python's `str()` conversion yields for them,
since the code interpolates them into f-strings (applying `str`) before any
other use.  `"\n".join(...)` is modelled by `pyJoin "\n"`, `s * n` on strings
by `pyRepeat`, and Python's `str.splitlines` by `pyLines` (for strings with
no trailing newline it splits on the newline character; the empty string has
no lines).
-/

/-- A Python scalar that can sit in an optional attribute slot. -/
inductive PyVal where
  | vstr (s : String)
  | vint (n : Int)
deriving DecidableEq

/-- Python truthiness of a scalar: empty string and zero are falsy. -/
def PyVal.truthy : PyVal → Bool
  | .vstr s => s ≠ ""
  | .vint n => n ≠ 0

/-- Python `str()` of a scalar. -/
def PyVal.pyStr : PyVal → String
  | .vstr s => s
  | .vint n => toString n

/-- Truthiness of an optional slot: `None` is falsy. -/
def truthyO : Option PyVal → Bool
  | none => false
  | some v => v.truthy

/-- `str()` of an optional slot: `None` prints as `"None"`. -/
def strO : Option PyVal → String
  | none => "None"
  | some v => v.pyStr

/-- Truthiness of an optional string (`author` / `source` of a blockquote). -/
def truthyOS : Option String → Bool
  | none => false
  | some s => s ≠ ""

/-- `str()` of an optional string, as an f-string interpolates it. -/
def strOS : Option String → String
  | none => "None"
  | some s => s

/-- Python `sep.join(parts)`. -/
def pyJoin (sep : String) : List String → String
  | [] => ""
  | [x] => x
  | x :: y :: xs => x ++ sep ++ pyJoin sep (y :: xs)

/-- Python `s * n` for a (possibly negative) integer count. -/
def pyRepeatAux (s : String) : Nat → String
  | 0 => ""
  | n + 1 => s ++ pyRepeatAux s n

/-- Python `s * n`; non-positive counts yield the empty string. -/
def pyRepeat (s : String) (n : Int) : String := pyRepeatAux s n.toNat

/-- The closed set of document element kinds of `document.py`. -/
inductive Element where
  | sec (title : String) (level : Int) (content : List Element)
  | paragraph (text : String)
  | unorderedList (items : List String)
  | orderedList (items : List String)
  | table (header : List String) (rows : List (List String))
  | image (src alt_text : String) (title width height align : Option PyVal)
  | blockquote (text : String) (author source : Option String)
  | horizontalLine
  | reference (key authors title publisher year : String)

/-- `Table.render`'s header part: `"|===\n| " + " | ".join(header) + "\n"`
if the header is truthy (non-empty), else `"|===\n"`. -/
def tableHeaderPart (header : List String) : String :=
  if header.isEmpty then "|===\n"
  else "|===\n| " ++ pyJoin " | " header ++ "\n"

/-- `Image.render`'s `options` list: one `key=value` token per truthy
attribute, in the fixed order title, width, height, align; the title value
is wrapped in double quotes. -/
def imageOptions (title width height align : Option PyVal) : List String :=
  (if truthyO title then ["title=\"" ++ strO title ++ "\""] else []) ++
  (if truthyO width then ["width=" ++ strO width] else []) ++
  (if truthyO height then ["height=" ++ strO height] else []) ++
  (if truthyO align then ["align=" ++ strO align] else [])

mutual

/-- `render()` of a document element, translated clause by clause from
`document.py`. -/
def render : Element → String
  | .sec title level content =>
      pyJoin "\n" ((pyRepeat "=" level ++ " " ++ title) :: renderList content)
  | .paragraph text => text
  | .unorderedList items => pyJoin "\n" (items.map (fun item => "* " ++ item))
  | .orderedList items => pyJoin "\n" (items.map (fun item => ". " ++ item))
  | .table header rows =>
      tableHeaderPart header ++
        pyJoin "\n" (rows.map (fun row => "| " ++ pyJoin " | " row)) ++
        "\n|==="
  | .image src alt_text title width height align =>
      let options_str := pyJoin "," (imageOptions title width height align)
      let image_line := "image::" ++ src ++ "[" ++ alt_text
      let image_line :=
        if options_str ≠ "" then image_line ++ ", " ++ options_str
        else image_line
      image_line ++ "]"
  | .blockquote text author source =>
      let quote := "____\n" ++ text ++ "\n____"
      if truthyOS author || truthyOS source then
        ("[quote, " ++ strOS author ++ ", " ++ strOS source ++ "]") ++ "\n" ++
          quote
      else quote
  | .horizontalLine => "----"
  | .reference key authors title publisher year =>
      "- [[[" ++ key ++ "]]] " ++ authors ++ ". " ++ title ++ ". " ++
        publisher ++ ". " ++ year ++ "."

/-- The list of rendered children (`[item.render() for item in content]`). -/
def renderList : List Element → List String
  | [] => []
  | e :: es => render e :: renderList es

end

/-- `Document.render`: newline-join of the rendered top-level children. -/
def renderDocument (content : List Element) : String :=
  pyJoin "\n" (renderList content)

/-- `Document.add_section(title, level)`: build a `Section`, append it, and
return it (here: the new content list paired with the new section). -/
def add_section (content : List Element) (title : String) (level : Int) :
    List Element × Element :=
  (content ++ [Element.sec title level []], Element.sec title level [])

/-- `Document.add_section(title)` with the default `level=1`. -/
def addSectionDefault (content : List Element) (title : String) :
    List Element × Element :=
  add_section content title 1

/-- Python `str.splitlines` on char lists (no universal-newline handling
beyond the newline character, which is all the renderer emits). -/
def pyLinesAux : List Char → List Char → List String
  | acc, [] => if acc.isEmpty then [] else [⟨acc.reverse⟩]
  | acc, c :: cs =>
      if c = '\n' then (⟨acc.reverse⟩ : String) :: pyLinesAux [] cs
      else pyLinesAux (c :: acc) cs

/-- Python `str.splitlines`: the lines of a string; the empty string has no
lines, and a trailing newline does not create an empty final line. -/
def pyLines (s : String) : List String := pyLinesAux [] s.data

example : pyLines "" = [] := by decide
example : pyLines "a\nb" = ["a", "b"] := by decide
example : pyLines "a\n" = ["a"] := by decide
example : render (.table ["H"] [["c"]]) = "|===\n| H\n| c\n|===" := by decide
example : render (.table [] []) = "|===\n\n|===" := by decide
example : render (.image "a" "b" none (some (.vint 1)) (some (.vint 2)) none)
    = "image::a[b, width=1,height=2]" := by decide
example : render (.sec "T" 0 []) = " T" := by decide
example : render (.blockquote "t" (some "A") none)
    = "[quote, A, None]\n____\nt\n____" := by decide
example : render (.reference "ref1" "Doe, J" "A Study" "ACM" "2020")
    = "- [[[ref1]]] Doe, J. A Study. ACM. 2020." := by decide

/-! ### Helper lemmas about the Python string primitives -/

lemma strAppend_assoc (a b c : String) : a ++ b ++ c = a ++ (b ++ c) :=
  String.ext (by simp [String.data_append])

lemma renderList_eq_map (es : List Element) : renderList es = es.map render := by
  induction es with
  | nil => rfl
  | cons e es ih => simp [renderList, ih]

lemma str_append_ne_empty (a b : String) (h : a ≠ "") : a ++ b ≠ "" := by
  intro hab
  apply h
  apply String.ext
  have hd := congrArg String.data hab
  rw [String.data_append] at hd
  have : a.data = [] := (List.append_eq_nil.mp hd).1
  simpa using this

lemma pyJoin_ne_empty (sep x : String) (xs : List String) (hx : x ≠ "") :
    pyJoin sep (x :: xs) ≠ "" := by
  cases xs with
  | nil => simpa [pyJoin] using hx
  | cons y ys =>
      simp only [pyJoin]
      exact str_append_ne_empty _ _ (str_append_ne_empty _ _ hx)

lemma pyLinesAux_no_newline (l : List Char) (hl : '\n' ∉ l) (acc : List Char) :
    pyLinesAux acc l =
      if (acc.reverse ++ l).isEmpty then [] else [⟨acc.reverse ++ l⟩] := by
  induction l generalizing acc with
  | nil => simp [pyLinesAux]
  | cons c cs ih =>
      have hc : ¬(c = '\n') := fun h => hl (h ▸ List.mem_cons_self c cs)
      have hcs : '\n' ∉ cs := fun h => hl (List.mem_cons_of_mem _ h)
      simp only [pyLinesAux, if_neg hc]
      rw [ih hcs (c :: acc)]
      simp [List.append_assoc]

lemma pyLinesAux_newline_split (l rest : List Char) (hl : '\n' ∉ l)
    (acc : List Char) :
    pyLinesAux acc (l ++ '\n' :: rest) =
      (⟨acc.reverse ++ l⟩ : String) :: pyLinesAux [] rest := by
  induction l generalizing acc with
  | nil => simp [pyLinesAux]
  | cons c cs ih =>
      have hc : ¬(c = '\n') := fun h => hl (h ▸ List.mem_cons_self c cs)
      have hcs : '\n' ∉ cs := fun h => hl (List.mem_cons_of_mem _ h)
      simp only [List.cons_append, pyLinesAux, if_neg hc, List.append_eq]
      rw [ih hcs (c :: acc)]
      simp [List.append_assoc]

lemma pyLines_pyJoin (parts : List String)
    (h : ∀ p ∈ parts, p ≠ "" ∧ '\n' ∉ p.data) :
    pyLines (pyJoin "\n" parts) = parts := by
  induction parts with
  | nil => rfl
  | cons x xs ih =>
      obtain ⟨hx, hnl⟩ := h x (List.mem_cons_self x xs)
      cases xs with
      | nil =>
          show pyLinesAux [] x.data = [x]
          rw [pyLinesAux_no_newline x.data hnl []]
          have hne : ¬x.data.isEmpty := by
            intro he
            exact hx (String.ext (by simpa [List.isEmpty_iff] using he))
          simp [hne]
      | cons y ys =>
          have hdata : (pyJoin "\n" (x :: y :: ys)).data =
              x.data ++ '\n' :: (pyJoin "\n" (y :: ys)).data := by
            simp only [pyJoin, String.data_append]
            simp
          show pyLinesAux [] (pyJoin "\n" (x :: y :: ys)).data = x :: y :: ys
          rw [hdata, pyLinesAux_newline_split x.data _ hnl []]
          have ihr := ih (fun p hp => h p (List.mem_cons_of_mem _ hp))
          simp only [List.reverse_nil, List.nil_append]
          exact congrArg (x :: ·) ihr

lemma pyJoin_no_newline (sep : String) (hsep : '\n' ∉ sep.data)
    (parts : List String) (h : ∀ p ∈ parts, '\n' ∉ p.data) :
    '\n' ∉ (pyJoin sep parts).data := by
  induction parts with
  | nil => simp [pyJoin]
  | cons x xs ih =>
      cases xs with
      | nil => simpa [pyJoin] using h x (List.mem_cons_self x _)
      | cons y ys =>
          simp only [pyJoin, String.data_append]
          intro hmem
          rcases List.mem_append.mp hmem with hmem' | hrest
          · rcases List.mem_append.mp hmem' with hx | hs
            · exact h x (List.mem_cons_self x _) hx
            · exact hsep hs
          · exact ih (fun p hp => h p (List.mem_cons_of_mem _ hp)) hrest

lemma pyRepeatAux_data (n : Nat) :
    (pyRepeatAux "=" n).data = List.replicate n '=' := by
  induction n with
  | zero => rfl
  | succ k ih =>
      simp only [pyRepeatAux, String.data_append, ih, List.replicate_succ]
      rfl

lemma pyRepeat_eq_replicate (n : Int) :
    pyRepeat "=" n = ⟨List.replicate n.toNat '='⟩ :=
  String.ext (pyRepeatAux_data n.toNat)

/-! ### Claim theorems -/

/-- C7: `Reference.render` returns the single line
`- [[[key]]] authors. title. publisher. year.` with all fields interpolated
verbatim and no escaping; in particular the spec's concrete example. -/
theorem reference_render_format :
    (∀ key authors title publisher year : String,
      render (.reference key authors title publisher year) =
        "- [[[" ++ key ++ "]]] " ++ authors ++ ". " ++ title ++ ". " ++
          publisher ++ ". " ++ year ++ ".") ∧
    render (.reference "ref1" "Doe, J" "A Study" "ACM" "2020") =
      "- [[[ref1]]] Doe, J. A Study. ACM. 2020." :=
  ⟨fun _ _ _ _ _ => rfl, by decide⟩

/-- C5: a table with empty header and zero rows renders exactly
`|===\n\n|===`, and more generally zero rows emit the opening and closing
markers with an empty body joined between them. -/
theorem table_zero_rows :
    render (.table [] []) = "|===\n\n|===" ∧
    ∀ header : List String,
      render (.table header []) = tableHeaderPart header ++ "" ++ "\n|===" :=
  ⟨by decide, fun _ => rfl⟩

/-- C9: rendering is total — every element of every kind renders to a
string — and degrades gracefully on inconsistent field values: table rows
whose lengths disagree with the header still render, and degenerate section
levels (zero or negative) produce an empty heading marker. -/
theorem render_total_on_degenerate :
    (∀ e : Element, ∃ s : String, render e = s) ∧
    render (.table ["a", "b"] [["x"], ["p", "q", "r"]]) =
      "|===\n| a | b\n| x\n| p | q | r\n|===" ∧
    render (.sec "T" 0 []) = " T" ∧
    render (.sec "T" (-2) []) = " T" :=
  ⟨fun e => ⟨render e, rfl⟩, by decide, by decide, by decide⟩

/-- An optional attribute slot with a falsy value, normalised to `None`. -/
def normO (o : Option PyVal) : Option PyVal := if truthyO o then o else none

lemma truthyO_normO (o : Option PyVal) : truthyO (normO o) = truthyO o := by
  by_cases h : truthyO o = true
  · simp [normO, h]
  · simp [normO, h, truthyO] at h ⊢
    simp [h]

lemma imageOptions_normO (t w h a : Option PyVal) :
    imageOptions (normO t) (normO w) (normO h) (normO a) =
      imageOptions t w h a := by
  have key : ∀ (o : Option PyVal) (pre post : String),
      (if truthyO (normO o) then [pre ++ strO (normO o) ++ post] else []) =
        (if truthyO o then [pre ++ strO o ++ post] else []) := by
    intro o pre post
    by_cases hq : truthyO o = true
    · simp [normO, hq]
    · simp [truthyO_normO, hq]
  have key2 : ∀ (o : Option PyVal) (pre : String),
      (if truthyO (normO o) then [pre ++ strO (normO o)] else []) =
        (if truthyO o then [pre ++ strO o] else []) := by
    intro o pre
    by_cases hq : truthyO o = true
    · simp [normO, hq]
    · simp [truthyO_normO, hq]
  unfold imageOptions
  rw [key, key2, key2, key2]

/-- C10: a falsy optional attribute (e.g. `width=0` or an empty-string
title) renders exactly as if the attribute had never been set. -/
theorem image_falsy_attr_ignored (src alt : String)
    (title width height align : Option PyVal) :
    render (.image src alt title width height align) =
      render (.image src alt (normO title) (normO width) (normO height)
        (normO align)) := by
  simp only [render, imageOptions_normO]

/-- C8: `add_section` with the default level builds a level-1 section,
appends it, and returns it; `Document.render` newline-joins the rendered
top-level children, so a section then a paragraph render with a single
newline between them and no extra separators. -/
theorem add_section_document_render
    (content : List Element) (title text : String) :
    addSectionDefault content title =
      (content ++ [Element.sec title 1 []], Element.sec title 1 []) ∧
    (∀ cs : List Element, renderDocument cs = pyJoin "\n" (cs.map render)) ∧
    renderDocument
        ((addSectionDefault [] title).1 ++ [Element.paragraph text]) =
      render (addSectionDefault [] title).2 ++ "\n" ++
        render (Element.paragraph text) := by
  refine ⟨rfl, fun cs => by rw [renderDocument, renderList_eq_map], rfl⟩

/-- C4: a blockquote with neither author nor source truthy renders exactly
`____\ntext\n____`; if either is truthy, the positional attribution line
`[quote, author, source]` (both slots always emitted, via Python `str`
conversion) precedes it, joined by a newline. -/
theorem blockquote_attribution (text : String) (author source : Option String) :
    (truthyOS author = false ∧ truthyOS source = false →
      render (.blockquote text author source) =
        "____\n" ++ text ++ "\n____") ∧
    (truthyOS author = true ∨ truthyOS source = true →
      render (.blockquote text author source) =
        "[quote, " ++ strOS author ++ ", " ++ strOS source ++ "]" ++ "\n" ++
          ("____\n" ++ text ++ "\n____")) := by
  constructor
  · rintro ⟨ha, hs⟩
    simp [render, ha, hs]
  · intro h
    have hb : (truthyOS author || truthyOS source) = true := by
      rcases h with h | h <;> simp [h]
    simp [render, hb]

/-- C4 witness: the two branches of `blockquote_attribution` at concrete
inputs. -/
theorem blockquote_attribution_witness :
    render (.blockquote "t" none none) = "____\nt\n____" ∧
    render (.blockquote "t" (some "A") none) =
      "[quote, A, None]\n____\nt\n____" := by
  constructor
  · exact (blockquote_attribution "t" none none).1 ⟨rfl, rfl⟩
  · have h := (blockquote_attribution "t" (some "A") none).2 (Or.inl (by decide))
    rw [h]
    decide

/-- C6: a section of level `n ≥ 1` renders as the heading line — exactly
`n` heading-marker characters `=`, a single space, the title — newline-joined
with the rendered text of each child, children joined with newline. -/
theorem section_render_heading (title : String) (level : Int)
    (content : List Element) (h : 1 ≤ level) :
    render (.sec title level content) =
      pyJoin "\n"
        ((String.mk (List.replicate level.toNat '=') ++ " " ++ title) ::
          content.map render) ∧
    (List.replicate level.toNat '=').length = level.toNat ∧
    (level.toNat : Int) = level ∧
    ∀ c ∈ List.replicate level.toNat '=', c = '=' := by
  refine ⟨?_, List.length_replicate _ _, ?_, fun c hc => List.eq_of_mem_replicate hc⟩
  · simp only [render, pyRepeat_eq_replicate, renderList_eq_map]
  · exact Int.toNat_of_nonneg (le_trans zero_le_one h)

/-- C6 witness: `section_render_heading` at level 2 with one child. -/
theorem section_render_heading_witness :
    (1 : Int) ≤ 2 ∧ render (.sec "T" 2 [.paragraph "p"]) = "== T\np" := by
  refine ⟨by decide, ?_⟩
  have h := (section_render_heading "T" 2 [.paragraph "p"] (by decide)).1
  rw [h]
  decide

lemma mem_ite_singleton (c : Prop) [Decidable c] (tok p : String)
    (hp : p ∈ (if c then [tok] else ([] : List String))) : p = tok := by
  split at hp
  · simpa using hp
  · simp at hp

lemma imageOptions_mem_ne_empty (t w h a : Option PyVal) :
    ∀ p ∈ imageOptions t w h a, p ≠ "" := by
  intro p hp
  unfold imageOptions at hp
  rcases List.mem_append.mp hp with hp' | hpa
  · rcases List.mem_append.mp hp' with hp'' | hph
    · rcases List.mem_append.mp hp'' with hpt | hpw
      · rw [mem_ite_singleton _ _ _ hpt]
        exact str_append_ne_empty _ _ (str_append_ne_empty _ _ (by decide))
      · rw [mem_ite_singleton _ _ _ hpw]
        exact str_append_ne_empty _ _ (by decide)
    · rw [mem_ite_singleton _ _ _ hph]
      exact str_append_ne_empty _ _ (by decide)
  · rw [mem_ite_singleton _ _ _ hpa]
    exact str_append_ne_empty _ _ (by decide)

lemma imageOptions_ne_nil (t w h a : Option PyVal)
    (hd : truthyO t = true ∨ truthyO w = true ∨ truthyO h = true ∨
      truthyO a = true) :
    imageOptions t w h a ≠ [] := by
  unfold imageOptions
  rcases hd with hh | hh | hh | hh <;> rw [hh] <;> simp

/-- C1 counterexample: with two attributes present, `Image.render` joins
the attribute tokens with a bare comma, not a comma and a space. -/
theorem image_attr_separator_counterexample :
    render (.image "a" "b" none (some (.vint 1)) (some (.vint 2)) none) =
      "image::a[b, width=1,height=2]" ∧
    render (.image "a" "b" none (some (.vint 1)) (some (.vint 2)) none) ≠
      "image::a[b, width=1, height=2]" := by
  constructor <;> decide

/-- C1 amended: with at least one truthy attribute among
title/width/height/align, `Image.render` is
`image::src[alt_text, ` followed by the `key=value` tokens in the fixed
order title, width, height, align joined by a bare comma (no space), closed
by `]`; with no truthy attribute it is exactly `image::src[alt_text]`. -/
theorem image_render_attrs (src alt : String)
    (title width height align : Option PyVal) :
    (truthyO title = true ∨ truthyO width = true ∨ truthyO height = true ∨
        truthyO align = true →
      render (.image src alt title width height align) =
        "image::" ++ src ++ "[" ++ alt ++ ", " ++
          pyJoin "," (imageOptions title width height align) ++ "]") ∧
    (truthyO title = false ∧ truthyO width = false ∧ truthyO height = false ∧
        truthyO align = false →
      render (.image src alt title width height align) =
        "image::" ++ src ++ "[" ++ alt ++ "]") := by
  constructor
  · intro hd
    have hopt := imageOptions_ne_nil title width height align hd
    have hne : pyJoin "," (imageOptions title width height align) ≠ "" := by
      obtain ⟨x, xs, hx⟩ := List.exists_cons_of_ne_nil hopt
      have hxne : x ≠ "" :=
        imageOptions_mem_ne_empty title width height align x
          (by rw [hx]; exact List.mem_cons_self _ _)
      rw [hx]
      exact pyJoin_ne_empty _ _ _ hxne
    simp only [render]
    rw [if_pos hne]
  · rintro ⟨h1, h2, h3, h4⟩
    simp [render, imageOptions, h1, h2, h3, h4, pyJoin]

/-- C1 witness: both branches of `image_render_attrs` at concrete inputs. -/
theorem image_render_attrs_witness :
    render (.image "s" "alt" (some (.vstr "T")) none none none) =
      "image::s[alt, title=\"T\"]" ∧
    render (.image "s" "alt" none none none none) = "image::s[alt]" := by
  constructor
  · have h :=
      (image_render_attrs "s" "alt" (some (.vstr "T")) none none none).1
        (Or.inl (by decide))
    rw [h]
    decide
  · exact (image_render_attrs "s" "alt" none none none none).2
      ⟨rfl, rfl, rfl, rfl⟩

/-- C2 counterexample: a table with a one-label header and one row has two
lines between the `|===` markers, not three. -/
theorem table_between_lines_counterexample :
    pyLines (render (.table ["H"] [["c"]])) =
      ["|===", "| H", "| c", "|==="] ∧
    ¬∃ mid : List String,
        pyLines (render (.table ["H"] [["c"]])) =
          "|===" :: mid ++ ["|==="] ∧ mid.length = 3 := by
  have he : pyLines (render (.table ["H"] [["c"]])) =
      ["|===", "| H", "| c", "|==="] := by decide
  refine ⟨he, ?_⟩
  rintro ⟨mid, hm, hl⟩
  rw [he] at hm
  have hlen := congrArg List.length hm
  simp [hl] at hlen

/-- C2 amended: a table with a non-empty header (with newline-free labels)
and exactly one row (with newline-free cells) renders with two lines between
the opening and closing `|===` markers: the header line first, then the
row line. -/
theorem table_header_one_row (header row : List String)
    (hne : header ≠ [])
    (hh : ∀ s ∈ header, '\n' ∉ s.data)
    (hr : ∀ s ∈ row, '\n' ∉ s.data) :
    pyLines (render (.table header [row])) =
      ["|===", "| " ++ pyJoin " | " header,
       "| " ++ pyJoin " | " row, "|==="] := by
  have hsepnl : '\n' ∉ (" | " : String).data := by decide
  have hjoin : render (.table header [row]) =
      pyJoin "\n" ["|===", "| " ++ pyJoin " | " header,
                   "| " ++ pyJoin " | " row, "|==="] := by
    apply String.ext
    have hie : ¬header.isEmpty := by simpa [List.isEmpty_iff] using hne
    have d1 : ("|===\n| " : String).data =
        ['|', '=', '=', '=', '\n', '|', ' '] := rfl
    have d2 : ("\n" : String).data = ['\n'] := rfl
    have d3 : ("| " : String).data = ['|', ' '] := rfl
    have d4 : ("\n|===" : String).data = ['\n', '|', '=', '=', '='] := rfl
    have d5 : ("|===" : String).data = ['|', '=', '=', '='] := rfl
    simp only [render, tableHeaderPart, if_neg hie, List.map, pyJoin,
      String.data_append, d1, d2, d3, d4, d5, List.cons_append,
      List.append_assoc, List.nil_append]
  rw [hjoin]
  apply pyLines_pyJoin
  intro p hp
  simp only [List.mem_cons, List.not_mem_nil, or_false] at hp
  rcases hp with rfl | rfl | rfl | rfl
  · exact ⟨by decide, by decide⟩
  · refine ⟨str_append_ne_empty _ _ (by decide), ?_⟩
    rw [String.data_append]
    intro hmem
    rcases List.mem_append.mp hmem with hpre | hj
    · revert hpre; decide
    · exact pyJoin_no_newline " | " hsepnl header hh hj
  · refine ⟨str_append_ne_empty _ _ (by decide), ?_⟩
    rw [String.data_append]
    intro hmem
    rcases List.mem_append.mp hmem with hpre | hj
    · revert hpre; decide
    · exact pyJoin_no_newline " | " hsepnl row hr hj
  · exact ⟨by decide, by decide⟩

/-- C2 witness: `table_header_one_row` at a two-column table. -/
theorem table_header_one_row_witness :
    (["A", "B"] : List String) ≠ [] ∧
    pyLines (render (.table ["A", "B"] [["1", "2"]])) =
      ["|===", "| A | B", "| 1 | 2", "|==="] := by
  refine ⟨by decide, ?_⟩
  have h := table_header_one_row ["A", "B"] ["1", "2"]
    (by decide) (by decide) (by decide)
  rw [h]
  decide

/-- C3 counterexample: a one-item unordered list whose item's text contains
a newline renders to two lines, not one, and the second line does not carry
the bullet. -/
theorem list_newline_item_counterexample :
    pyLines (render (.unorderedList ["a\nb"])) = ["* a", "b"] ∧
    (pyLines (render (.unorderedList ["a\nb"]))).length ≠ 1 := by
  constructor <;> decide

/-- C3 amended: for items whose text representation contains no newline,
an unordered (resp. ordered) list of `k` items renders to exactly the `k`
lines obtained by prefixing each item, in input order, with `* `
(resp. `. `). -/
theorem list_render_lines (items : List String)
    (h : ∀ i ∈ items, '\n' ∉ i.data) :
    pyLines (render (.unorderedList items)) =
        items.map (fun i => "* " ++ i) ∧
    pyLines (render (.orderedList items)) =
        items.map (fun i => ". " ++ i) := by
  constructor
  · show pyLines (pyJoin "\n" (items.map (fun i => "* " ++ i))) = _
    apply pyLines_pyJoin
    intro p hp
    obtain ⟨i, hi, rfl⟩ := List.mem_map.mp hp
    refine ⟨str_append_ne_empty _ _ (by decide), ?_⟩
    rw [String.data_append]
    intro hmem
    rcases List.mem_append.mp hmem with hpre | hitem
    · revert hpre; decide
    · exact h i hi hitem
  · show pyLines (pyJoin "\n" (items.map (fun i => ". " ++ i))) = _
    apply pyLines_pyJoin
    intro p hp
    obtain ⟨i, hi, rfl⟩ := List.mem_map.mp hp
    refine ⟨str_append_ne_empty _ _ (by decide), ?_⟩
    rw [String.data_append]
    intro hmem
    rcases List.mem_append.mp hmem with hpre | hitem
    · revert hpre; decide
    · exact h i hi hitem

/-- C3 witness: `list_render_lines` on a concrete two-item list. -/
theorem list_render_lines_witness :
    (∀ i ∈ (["x", "y"] : List String), '\n' ∉ i.data) ∧
    pyLines (render (.unorderedList ["x", "y"])) = ["* x", "* y"] ∧
    pyLines (render (.orderedList ["x", "y"])) = [". x", ". y"] := by
  refine ⟨by decide, ?_, ?_⟩
  · have h := (list_render_lines ["x", "y"] (by decide)).1
    rw [h]
    decide
  · have h := (list_render_lines ["x", "y"] (by decide)).2
    rw [h]
    decide
